import Mathlib

/-!
Turn-signal blink controller of `SHCustomProtocol.h`

A shallow embedding of `SHCustomProtocol::handleBlinker` and of the two call
sites in `SHCustomProtocol::read`, followed by the properties established
about them.

Modelling conventions

* `unsigned long` is the 32-bit millisecond counter of the board: clock values
  are naturals below `2 ^ 32`, and the subtraction `currentMillis -
  lastBlinkMillis` is taken modulo `2 ^ 32` (`subU32`).
* `int currentTurn` / `int &previousTurn` are integers.
* The by-reference parameters `blinkerState`, `lastBlinkMillis`,
  `previousTurn`, `previousMillis` form the record `Chan`, passed in and
  returned.
* `millis()` is the extra argument `currentMillis`.
* The calls `(VolvoDIM.*setBlinker)(x)` made during one invocation are
  returned as the list of their arguments, in program order.
* In `read`, the width of `int` is the argument `intBits`; storing the `long`
  result of `toInt()` in an `int` keeps it modulo `2 ^ intBits` (`toIntVar`).
* The floating-point expression `floor(x * .72)` of line 58 is an argument of
  the model, known only to lie in its rounding range (`coolantLo`,
  `coolantHi`).
-/

namespace SHCustomProtocol

/-- Number of values of an `unsigned long` (32 bits). -/
def U32 : Nat := 4294967296

/-- Difference `a - b` of two `unsigned long` values, modulo `2 ^ 32`. -/
def subU32 (a b : Nat) : Nat := (a + (U32 - b % U32)) % U32

/-- Source line 17: `const long debounceDelay = 200;`. -/
def debounceDelay : Nat := 200

/-- Source line 18: `const long blinkInterval = 500;`. -/
def blinkInterval : Nat := 500

/-- The four by-reference parameters of `handleBlinker` for one side. -/
structure Chan where
  previousTurn : Int
  blinkerState : Bool
  lastBlinkMillis : Nat
  previousMillis : Nat
  deriving DecidableEq, Repr

/-- What one invocation of `handleBlinker` leaves behind: the channel, the
arguments of the driver calls it made (in order), and whether the flip of
source line 40 was executed. -/
structure Outcome where
  chan : Chan
  calls : List Int
  toggled : Bool
  deriving DecidableEq, Repr

/-- Source lines 31-36: the edge block of `handleBlinker`. -/
def edgeReset (currentTurn : Int) (s : Chan) (currentMillis : Nat) : Chan :=
  if currentTurn ≠ s.previousTurn then
    { previousMillis := currentMillis
      previousTurn := currentTurn
      blinkerState := decide (currentTurn = 1)
      lastBlinkMillis := currentMillis }
  else s

/-- Source lines 28-48: `handleBlinker`, with `millis()` as `currentMillis`. -/
def handleBlinker (currentTurn : Int) (s : Chan) (currentMillis : Nat) : Outcome :=
  let s1 := edgeReset currentTurn s currentMillis
  if currentTurn = 1 then
    if subU32 currentMillis s1.lastBlinkMillis ≥ blinkInterval then
      { chan := { s1 with blinkerState := !s1.blinkerState
                          lastBlinkMillis := currentMillis }
        calls := [if (!s1.blinkerState) = true then 1 else 0]
        toggled := true }
    else
      { chan := s1, calls := [], toggled := false }
  else
    { chan := { s1 with blinkerState := false }
      calls := [0]
      toggled := false }

/-- Source lines 11, 15, 22, 24 (and 12, 16, 23, 25): the initial channel. -/
def Chan.init : Chan :=
  { previousTurn := 0, blinkerState := false, lastBlinkMillis := 0, previousMillis := 0 }

/-- Outcomes of successive invocations of `handleBlinker` on one channel, one
per `(request, clock value)` pair. -/
def trace : Chan → List (Int × Nat) → List Outcome
  | _, [] => []
  | s, (r, t) :: rest =>
    let o := handleBlinker r s t
    o :: trace o.chan rest

/-- Channel reached after successive invocations of `handleBlinker`. -/
def runChan : Chan → List (Int × Nat) → Chan
  | s, [] => s
  | s, (r, t) :: rest => runChan (handleBlinker r s t).chan rest

/-- The pair of channels owned by the controller: the globals `LeftTurn`,
`previousMillisLeft`, `RightTurn`, `previousMillisRight` and the members
`leftBlinkerState`, `lastBlinkMillisLeft`, `rightBlinkerState`,
`lastBlinkMillisRight`. -/
structure Pair where
  left : Chan
  right : Chan
  deriving DecidableEq, Repr

/-- Driver operations selected by the member-function pointer. -/
inductive DriverCall where
  | setLeftBlinkerSolid (x : Int)
  | setRightBlinkerSolid (x : Int)
  deriving DecidableEq, Repr

/-- Source line 80: the left call site of `read`. Returns the pair and the
driver calls made. -/
def updateLeft (p : Pair) (currentLeftTurn : Int) (now : Nat) : Pair × List DriverCall :=
  let o := handleBlinker currentLeftTurn p.left now
  ({ p with left := o.chan }, o.calls.map DriverCall.setLeftBlinkerSolid)

/-- Source line 83: the right call site of `read`. Returns the pair and the
driver calls made. -/
def updateRight (p : Pair) (currentRightTurn : Int) (now : Nat) : Pair × List DriverCall :=
  let o := handleBlinker currentRightTurn p.right now
  ({ p with right := o.chan }, o.calls.map DriverCall.setRightBlinkerSolid)

/-- Arguments of the left-side driver calls in a log. -/
def leftCalls : List DriverCall → List Int
  | [] => []
  | DriverCall.setLeftBlinkerSolid x :: l => x :: leftCalls l
  | DriverCall.setRightBlinkerSolid _ :: l => leftCalls l

/-- Arguments of the right-side driver calls in a log. -/
def rightCalls : List DriverCall → List Int
  | [] => []
  | DriverCall.setLeftBlinkerSolid _ :: l => rightCalls l
  | DriverCall.setRightBlinkerSolid x :: l => x :: rightCalls l

/-- Clock values of the invocations that executed the flip of line 40, for a
run with request On (`currentTurn = 1`) at each of the given clock values. -/
def toggleTimes : Chan → List Nat → List Nat
  | _, [] => []
  | s, t :: ts =>
    let o := handleBlinker 1 s t
    if o.toggled then t :: toggleTimes o.chan ts else toggleTimes o.chan ts

/-- Channel reached after invocations with request On at the given clock values. -/
def runOn : Chan → List Nat → Chan
  | s, [] => s
  | s, t :: ts => runOn (handleBlinker 1 s t).chan ts

/-- Driver calls made in a run with request On at the given clock values, each
with the clock value of the invocation that made it. -/
def onCalls : Chan → List Nat → List (Nat × Int)
  | _, [] => []
  | s, t :: ts =>
    let o := handleBlinker 1 s t
    o.calls.map (fun x => (t, x)) ++ onCalls o.chan ts

/-- Source lines 17-18: the two global constants a function body can read,
as an environment. -/
structure Constants where
  debounceDelay : Nat
  blinkInterval : Nat
  deriving DecidableEq, Repr

/-- The constants with the values the source gives them. -/
def Constants.source : Constants :=
  { debounceDelay := SHCustomProtocol.debounceDelay
    blinkInterval := SHCustomProtocol.blinkInterval }

/-- Source lines 28-48 once more, with the global constants passed as the
environment `c`: each read of a constant in the body is a read of a field of
`c`. The body reads `blinkInterval` on line 39 and names no other constant. -/
def handleBlinkerWith (c : Constants) (currentTurn : Int) (s : Chan) (currentMillis : Nat) :
    Outcome :=
  let s1 := edgeReset currentTurn s currentMillis
  if currentTurn = 1 then
    if subU32 currentMillis s1.lastBlinkMillis ≥ c.blinkInterval then
      { chan := { s1 with blinkerState := !s1.blinkerState
                          lastBlinkMillis := currentMillis }
        calls := [if (!s1.blinkerState) = true then 1 else 0]
        toggled := true }
    else
      { chan := s1, calls := [], toggled := false }
  else
    { chan := { s1 with blinkerState := false }
      calls := [0]
      toggled := false }

/-- Source lines 58-73: the sixteen fields of one frame, each numeric field
being the `long` that `toInt()` returns for its text, before it is stored in
an `int` (and, for the first field, before the scaling of line 58). -/
structure Frame where
  coolantField : Int
  carSpeed : Int
  rpms : Int
  fuelPercent : Int
  oilTemp : Int
  gear : List Char
  currentLeftTurn : Int
  currentRightTurn : Int
  hour : Int
  minute : Int
  mileage : Int
  ding : Int
  totalBrightness : Int
  highbeam : Int
  fog : Int
  brake : Int
  deriving DecidableEq, Repr

/-- The values of an `int` of `intBits` bits (16 on AVR boards, 32 on others). -/
def fitsInt (intBits : Nat) (x : Int) : Prop :=
  -(2 ^ (intBits - 1)) ≤ x ∧ x < 2 ^ (intBits - 1)

instance (intBits : Nat) (x : Int) : Decidable (fitsInt intBits x) :=
  inferInstanceAs (Decidable (-(2 ^ (intBits - 1)) ≤ x ∧ x < 2 ^ (intBits - 1)))

/-- Source lines 59-73: `int v = ....toInt();`, the conversion of the `long`
result to an `int` of `intBits` bits, which keeps the value modulo
`2 ^ intBits` in two's complement (what gcc, the compiler of these boards,
defines for a value out of range). -/
def toIntVar (intBits : Nat) (x : Int) : Int :=
  (x + 2 ^ (intBits - 1)) % 2 ^ intBits - 2 ^ (intBits - 1)

/-- Lower end of the range of `floor(x * .72)` (line 58) under floating-point
rounding: the constant, the conversion of `x` and the product are each rounded
with relative error at most `2 ^ (-24)`, together less than `2 ^ (-22)`, so the
product lies between `0.72 x (1 - 2 ^ (-22))` and `0.72 x (1 + 2 ^ (-22))`.
This is the floor of the smaller of the two. -/
def coolantLo (x : Int) : Int :=
  min ((72 * x * 4194303) / 419430400) ((72 * x * 4194305) / 419430400)

/-- Upper end of the range of `floor(x * .72)` under floating-point rounding:
the floor of the larger of `0.72 x (1 - 2 ^ (-22))` and
`0.72 x (1 + 2 ^ (-22))`. -/
def coolantHi (x : Int) : Int :=
  max ((72 * x * 4194303) / 419430400) ((72 * x * 4194305) / 419430400)

/-- Source line 92: `gear.charAt(0)`, which is the zero character when the
string is empty. -/
def gearChar (gear : List Char) : Char := gear.headD (Char.ofNat 0)

/-- Driver operations called by lines 86-98 of `read`. -/
inductive GaugeCall where
  | setTime (v : Int)
  | setOutdoorTemp (v : Int)
  | setCoolantTemp (v : Int)
  | setSpeed (v : Int)
  | setGasLevel (v : Int)
  | setRpm (v : Int)
  | setGearPosText (c : Char)
  | enableMilageTracking (v : Int)
  | enableDisableDingNoise (v : Int)
  | enableHighBeam (v : Int)
  | setTotalBrightness (v : Int)
  | enableFog (v : Int)
  | enableBrake (v : Int)
  deriving DecidableEq, Repr

/-- Source lines 58-77 and 86-98: the gauge calls of `read`, in program order,
on a board whose `int` has `intBits` bits. `coolantScaled x` is the value line
58 stores in `int coolantTemp` for a first field `x`, a floating-point
computation of the board. `clockToDecimal h m 1` is the value line 77 stores
in `int timeValue`; `VolvoDIM::clockToDecimal` belongs to the driver library,
whose code is not part of this repository. -/
def readGauges (intBits : Nat) (coolantScaled : Int → Int)
    (clockToDecimal : Int → Int → Int → Int) (f : Frame) : List GaugeCall :=
  let coolantTemp := coolantScaled f.coolantField
  let carSpeed := toIntVar intBits f.carSpeed
  let rpms := toIntVar intBits f.rpms
  let fuelPercent := toIntVar intBits f.fuelPercent
  let oilTemp := toIntVar intBits f.oilTemp
  let hour := toIntVar intBits f.hour
  let minute := toIntVar intBits f.minute
  let mileage := toIntVar intBits f.mileage
  let ding := toIntVar intBits f.ding
  let totalBrightness := toIntVar intBits f.totalBrightness
  let highbeam := toIntVar intBits f.highbeam
  let fog := toIntVar intBits f.fog
  let brake := toIntVar intBits f.brake
  let timeValue := clockToDecimal hour minute 1
  [ GaugeCall.setTime timeValue
  , GaugeCall.setOutdoorTemp oilTemp
  , GaugeCall.setCoolantTemp coolantTemp
  , GaugeCall.setSpeed carSpeed
  , GaugeCall.setGasLevel fuelPercent
  , GaugeCall.setRpm rpms
  , GaugeCall.setGearPosText (gearChar f.gear)
  , GaugeCall.enableMilageTracking mileage
  , GaugeCall.enableDisableDingNoise ding
  , GaugeCall.enableHighBeam highbeam
  , GaugeCall.setTotalBrightness totalBrightness
  , GaugeCall.enableFog fog
  , GaugeCall.enableBrake brake ]

/-! ## Basic facts -/

theorem subU32_self (a : Nat) : subU32 a a = 0 := by
  unfold subU32 U32
  omega

theorem subU32_of_le {a b : Nat} (hb : b ≤ a) (ha : a < U32) : subU32 a b = a - b := by
  unfold subU32
  unfold U32 at *
  omega

/-- Request On on a channel whose recorded request is not On: the edge block
runs, the elapsed time is zero, nothing is sent to the driver. -/
theorem handleBlinker_on_edge (s : Chan) (t : Nat) (h : s.previousTurn ≠ 1) :
    handleBlinker 1 s t =
      { chan := { previousMillis := t, previousTurn := 1, blinkerState := true,
                  lastBlinkMillis := t }
        calls := []
        toggled := false } := by
  have h1 : (1 : Int) ≠ s.previousTurn := fun e => h e.symm
  simp [handleBlinker, edgeReset, h1, subU32_self, blinkInterval]

/-- Request On on a channel already On, interval elapsed: the flip of line 40. -/
theorem handleBlinker_on_toggle (s : Chan) (t : Nat) (h1 : s.previousTurn = 1)
    (h : blinkInterval ≤ subU32 t s.lastBlinkMillis) :
    handleBlinker 1 s t =
      { chan := { s with blinkerState := !s.blinkerState, lastBlinkMillis := t }
        calls := [if (!s.blinkerState) = true then 1 else 0]
        toggled := true } := by
  simp [handleBlinker, edgeReset, h1, h]

/-- Request On on a channel already On, interval not elapsed: nothing changes. -/
theorem handleBlinker_on_hold (s : Chan) (t : Nat) (h1 : s.previousTurn = 1)
    (h : subU32 t s.lastBlinkMillis < blinkInterval) :
    handleBlinker 1 s t = { chan := s, calls := [], toggled := false } := by
  have h2 : ¬ blinkInterval ≤ subU32 t s.lastBlinkMillis := Nat.not_le.mpr h
  simp [handleBlinker, edgeReset, h1, h2]

/-- A request other than On: the else branch of line 44. -/
theorem handleBlinker_not_on (r : Int) (s : Chan) (t : Nat) (h : r ≠ 1) :
    handleBlinker r s t =
      { chan := { edgeReset r s t with blinkerState := false }
        calls := [0]
        toggled := false } := by
  simp [handleBlinker, h]

/-- After a call with request On the recorded request is On. -/
theorem handleBlinker_on_previousTurn (s : Chan) (t : Nat) :
    (handleBlinker 1 s t).chan.previousTurn = 1 := by
  by_cases h1 : s.previousTurn = 1
  · by_cases h : blinkInterval ≤ subU32 t s.lastBlinkMillis
    · rw [handleBlinker_on_toggle s t h1 h]; exact h1
    · rw [handleBlinker_on_hold s t h1 (Nat.not_le.mp h)]; exact h1
  · rw [handleBlinker_on_edge s t h1]

theorem trace_getElem? (inputs : List (Int × Nat)) :
    ∀ (s : Chan) (i : Nat) (r : Int) (t : Nat), inputs[i]? = some (r, t) →
      (trace s inputs)[i]? = some (handleBlinker r (runChan s (inputs.take i)) t) := by
  induction inputs with
  | nil => intro s i r t h; simp at h
  | cons x rest ih =>
    intro s i r t h
    obtain ⟨r0, t0⟩ := x
    cases i with
    | zero =>
      simp only [List.getElem?_cons_zero, Option.some.injEq, Prod.mk.injEq] at h
      obtain ⟨hr, ht⟩ := h
      subst hr; subst ht
      simp [trace, runChan]
    | succ j =>
      simp only [List.getElem?_cons_succ] at h
      simpa [trace, runChan] using ih (handleBlinker r0 s t0).chan j r t h

/-- A call that executed the flip of line 40 was made with request On on a
channel already On, and leaves `lastBlinkMillis` at the clock value. -/
theorem handleBlinker_toggled_lastBlinkMillis (s : Chan) (t : Nat)
    (h : (handleBlinker 1 s t).toggled = true) :
    (handleBlinker 1 s t).chan.lastBlinkMillis = t := by
  by_cases h1 : s.previousTurn = 1
  · by_cases hi : blinkInterval ≤ subU32 t s.lastBlinkMillis
    · rw [handleBlinker_on_toggle s t h1 hi]
    · rw [handleBlinker_on_hold s t h1 (Nat.not_le.mp hi)] at h
      simp at h
  · rw [handleBlinker_on_edge s t h1]

/-- On a channel already On, run with request On at non-decreasing clock values
that do not wrap and are not before `lastBlinkMillis`: successive toggles are
at least `blinkInterval` apart and every toggle is at least `blinkInterval`
after `lastBlinkMillis`. -/
theorem toggleTimes_gap_of_on :
    ∀ (ts : List Nat) (s : Chan), s.previousTurn = 1 → ts.Sorted (· ≤ ·) →
      (∀ t ∈ ts, t < U32) → (∀ t ∈ ts, s.lastBlinkMillis ≤ t) →
      (toggleTimes s ts).Chain' (fun a b => a + blinkInterval ≤ b) ∧
      ∀ t ∈ toggleTimes s ts, s.lastBlinkMillis + blinkInterval ≤ t := by
  intro ts
  induction ts with
  | nil => intro s _ _ _ _; simp [toggleTimes]
  | cons t rest ih =>
    intro s h1 hsorted hbound hlast
    have hrest : rest.Sorted (· ≤ ·) := hsorted.of_cons
    have hle : ∀ u ∈ rest, t ≤ u := (List.sorted_cons.mp hsorted).1
    have hb : ∀ u ∈ rest, u < U32 := fun u hu => hbound u (List.mem_cons_of_mem _ hu)
    have htL : s.lastBlinkMillis ≤ t := hlast t (List.mem_cons_self _ _)
    have hsub : subU32 t s.lastBlinkMillis = t - s.lastBlinkMillis :=
      subU32_of_le htL (hbound t (List.mem_cons_self _ _))
    by_cases hi : blinkInterval ≤ subU32 t s.lastBlinkMillis
    · have hstep := handleBlinker_on_toggle s t h1 hi
      obtain ⟨hc, hall⟩ := ih { s with blinkerState := !s.blinkerState, lastBlinkMillis := t }
        h1 hrest hb hle
      have htt : toggleTimes s (t :: rest) =
          t :: toggleTimes { s with blinkerState := !s.blinkerState, lastBlinkMillis := t }
            rest := by
        simp [toggleTimes, hstep]
      rw [htt]
      refine ⟨List.Chain'.cons' hc ?_, ?_⟩
      · intro y hy
        exact hall y (List.mem_of_mem_head? hy)
      · intro u hu
        rw [hsub] at hi
        rcases List.mem_cons.mp hu with rfl | hu
        · omega
        · have := hall u hu
          simp only at this
          omega
    · have hstep := handleBlinker_on_hold s t h1 (Nat.not_le.mp hi)
      have htt : toggleTimes s (t :: rest) = toggleTimes s rest := by
        simp [toggleTimes, hstep]
      rw [htt]
      exact ih s h1 hrest hb (fun u hu => hlast u (List.mem_cons_of_mem _ hu))

/-- On a channel already On whose last call was at `prev`, less than
`blinkInterval` after `lastBlinkMillis`: if calls with request On follow at
most `P` apart and one of them is at least `blinkInterval` after
`lastBlinkMillis`, the next toggle exists and is at most
`blinkInterval + P` after `lastBlinkMillis`. -/
theorem next_toggle_within (P : Nat) :
    ∀ (ts : List Nat) (s : Chan) (prev : Nat), s.previousTurn = 1 →
      s.lastBlinkMillis ≤ prev → prev < s.lastBlinkMillis + blinkInterval →
      (prev :: ts).Sorted (· ≤ ·) → (prev :: ts).Chain' (fun a b => b ≤ a + P) →
      (∀ u ∈ ts, u < U32) → (∃ u ∈ ts, s.lastBlinkMillis + blinkInterval ≤ u) →
      ∃ t1, (toggleTimes s ts).head? = some t1 ∧
        s.lastBlinkMillis + blinkInterval ≤ t1 ∧
        t1 ≤ s.lastBlinkMillis + blinkInterval + P := by
  intro ts
  induction ts with
  | nil => intro s prev _ _ _ _ _ _ hex; simp at hex
  | cons t rest ih =>
    intro s prev h1 hLp hpL hsorted hgap hbound hex
    have hpt : prev ≤ t := (List.sorted_cons.mp hsorted).1 t (List.mem_cons_self _ _)
    have htP : t ≤ prev + P := (List.chain'_cons.mp hgap).1
    have hsub : subU32 t s.lastBlinkMillis = t - s.lastBlinkMillis :=
      subU32_of_le (le_trans hLp hpt) (hbound t (List.mem_cons_self _ _))
    by_cases hi : blinkInterval ≤ subU32 t s.lastBlinkMillis
    · have hstep := handleBlinker_on_toggle s t h1 hi
      refine ⟨t, by simp [toggleTimes, hstep], ?_, ?_⟩
      · rw [hsub] at hi; omega
      · omega
    · have hstep := handleBlinker_on_hold s t h1 (Nat.not_le.mp hi)
      have htt : toggleTimes s (t :: rest) = toggleTimes s rest := by
        simp [toggleTimes, hstep]
      rw [htt]
      rw [hsub] at hi
      refine ih s t h1 (le_trans hLp hpt) (by omega) hsorted.of_cons
        (List.chain'_cons.mp hgap).2 (fun u hu => hbound u (List.mem_cons_of_mem _ hu)) ?_
      obtain ⟨u, hu, hLu⟩ := hex
      rcases List.mem_cons.mp hu with rfl | hu
      · omega
      · exact ⟨u, hu, hLu⟩

/-- The toggles of a run split at any call: those before it, the call itself
if it toggled, and those of the rest of the run. -/
theorem toggleTimes_append (pre : List Nat) :
    ∀ (s : Chan) (post : List Nat),
      toggleTimes s (pre ++ post) = toggleTimes s pre ++ toggleTimes (runOn s pre) post := by
  induction pre with
  | nil => intro s post; simp [toggleTimes, runOn]
  | cons t rest ih =>
    intro s post
    by_cases h : (handleBlinker 1 s t).toggled = true
    · simp [toggleTimes, runOn, h, ih]
    · simp [toggleTimes, runOn, h, ih]

theorem leftCalls_append (a b : List DriverCall) :
    leftCalls (a ++ b) = leftCalls a ++ leftCalls b := by
  induction a with
  | nil => rfl
  | cons x rest ih => cases x <;> simp [leftCalls, ih]

theorem rightCalls_append (a b : List DriverCall) :
    rightCalls (a ++ b) = rightCalls a ++ rightCalls b := by
  induction a with
  | nil => rfl
  | cons x rest ih => cases x <;> simp [rightCalls, ih]

theorem leftCalls_map_left (l : List Int) :
    leftCalls (l.map DriverCall.setLeftBlinkerSolid) = l := by
  induction l with
  | nil => rfl
  | cons x rest ih => simp [leftCalls, ih]

theorem leftCalls_map_right (l : List Int) :
    leftCalls (l.map DriverCall.setRightBlinkerSolid) = [] := by
  induction l with
  | nil => rfl
  | cons x rest ih => simp [leftCalls, ih]

theorem rightCalls_map_right (l : List Int) :
    rightCalls (l.map DriverCall.setRightBlinkerSolid) = l := by
  induction l with
  | nil => rfl
  | cons x rest ih => simp [rightCalls, ih]

theorem rightCalls_map_left (l : List Int) :
    rightCalls (l.map DriverCall.setLeftBlinkerSolid) = [] := by
  induction l with
  | nil => rfl
  | cons x rest ih => simp [rightCalls, ih]

/-- On a channel already On whose last call was at `prev`, less than
`blinkInterval` after `lastBlinkMillis`, with calls following at most `P`
apart: the toggle of index `k` (counted from 0), when it exists, lies between
`(k + 1) * 500` and `(k + 1) * (500 + P)` after `lastBlinkMillis`; and it
exists when some call is at least `(k + 1) * 500 + k * P` after
`lastBlinkMillis`. -/
theorem kth_toggle_bounds (P : Nat) :
    ∀ (ts : List Nat) (s : Chan) (prev k : Nat), s.previousTurn = 1 →
      s.lastBlinkMillis ≤ prev → prev < s.lastBlinkMillis + blinkInterval →
      (prev :: ts).Sorted (· ≤ ·) → (prev :: ts).Chain' (fun a b => b ≤ a + P) →
      (∀ u ∈ ts, u < U32) →
      (∀ t, (toggleTimes s ts)[k]? = some t →
        s.lastBlinkMillis + (k + 1) * 500 ≤ t ∧
        t ≤ s.lastBlinkMillis + (k + 1) * 500 + (k + 1) * P) ∧
      ((∃ u ∈ ts, s.lastBlinkMillis + (k + 1) * 500 + k * P ≤ u) →
        ∃ t, (toggleTimes s ts)[k]? = some t) := by
  intro ts
  induction ts with
  | nil => intro s prev k _ _ _ _ _ _; simp [toggleTimes]
  | cons t rest ih =>
    intro s prev k h1 hLp hpL hsorted hgap hbound
    have hpt : prev ≤ t := (List.sorted_cons.mp hsorted).1 t (List.mem_cons_self _ _)
    have htP : t ≤ prev + P := (List.chain'_cons.mp hgap).1
    have hsub : subU32 t s.lastBlinkMillis = t - s.lastBlinkMillis :=
      subU32_of_le (le_trans hLp hpt) (hbound t (List.mem_cons_self _ _))
    have hb : ∀ u ∈ rest, u < U32 := fun u hu => hbound u (List.mem_cons_of_mem _ hu)
    unfold blinkInterval at hpL
    by_cases hi : blinkInterval ≤ subU32 t s.lastBlinkMillis
    · have hstep := handleBlinker_on_toggle s t h1 hi
      have htt : toggleTimes s (t :: rest) =
          t :: toggleTimes { s with blinkerState := !s.blinkerState, lastBlinkMillis := t }
            rest := by
        simp [toggleTimes, hstep]
      rw [hsub] at hi
      unfold blinkInterval at hi
      rw [htt]
      cases k with
      | zero =>
        refine ⟨fun t1 ht1 => ?_, fun _ => ⟨t, by simp⟩⟩
        simp only [List.getElem?_cons_zero, Option.some.injEq] at ht1
        subst ht1
        omega
      | succ j =>
        obtain ⟨hA, hB⟩ := ih { s with blinkerState := !s.blinkerState, lastBlinkMillis := t }
          t j h1 (le_refl t) (by simp [blinkInterval]) hsorted.of_cons
          (List.chain'_cons.mp hgap).2 hb
        simp only at hA hB
        have e1 : (j + 1 + 1) * P = (j + 1) * P + P := by ring
        have e2 : (j + 1) * P = j * P + P := by ring
        simp only [List.getElem?_cons_succ]
        refine ⟨fun t1 ht1 => ?_, fun hex => ?_⟩
        · have := hA t1 ht1
          omega
        · apply hB
          obtain ⟨u, hu, hLu⟩ := hex
          rcases List.mem_cons.mp hu with rfl | hu
          · omega
          · exact ⟨u, hu, by omega⟩
    · have hstep := handleBlinker_on_hold s t h1 (Nat.not_le.mp hi)
      have htt : toggleTimes s (t :: rest) = toggleTimes s rest := by
        simp [toggleTimes, hstep]
      rw [hsub] at hi
      unfold blinkInterval at hi
      rw [htt]
      obtain ⟨hA, hB⟩ := ih s t k h1 (le_trans hLp hpt) (by unfold blinkInterval; omega)
        hsorted.of_cons (List.chain'_cons.mp hgap).2 hb
      refine ⟨hA, fun hex => hB ?_⟩
      obtain ⟨u, hu, hLu⟩ := hex
      rcases List.mem_cons.mp hu with rfl | hu
      · omega
      · exact ⟨u, hu, hLu⟩

/-- After any call the recorded request is the request passed. -/
theorem handleBlinker_previousTurn (r : Int) (s : Chan) (t : Nat) :
    (handleBlinker r s t).chan.previousTurn = r := by
  by_cases hr : r = 1
  · subst hr; exact handleBlinker_on_previousTurn s t
  · rw [handleBlinker_not_on r s t hr]
    by_cases he : r = s.previousTurn
    · simp [edgeReset, he]
    · simp [edgeReset, he]

/-- Elapsed time across a wrap of the 32-bit counter. -/
theorem subU32_add_mod (L : Nat) {d : Nat} (hd : d < U32) :
    subU32 ((L + d) % U32) L = d := by
  unfold subU32
  unfold U32 at *
  omega

/-- On a channel already On, run with request On at non-decreasing non-wrapping
clock values not before `lastBlinkMillis`: every driver call is at least
`blinkInterval` after `lastBlinkMillis`, a call with argument 1 on a channel
whose `blinkerState` is true is at least two intervals after it, and the first
driver call carries the negation of `blinkerState`. -/
theorem onCalls_of_on :
    ∀ (ts : List Nat) (s : Chan), s.previousTurn = 1 → ts.Sorted (· ≤ ·) →
      (∀ t ∈ ts, t < U32) → (∀ t ∈ ts, s.lastBlinkMillis ≤ t) →
      (∀ p ∈ onCalls s ts, s.lastBlinkMillis + 500 ≤ p.1 ∧
        (s.blinkerState = true → p.2 = 1 → s.lastBlinkMillis + 1000 ≤ p.1)) ∧
      (∀ p ∈ (onCalls s ts).head?, p.2 = if s.blinkerState = true then 0 else 1) := by
  intro ts
  induction ts with
  | nil => intro s _ _ _ _; simp [onCalls]
  | cons t rest ih =>
    intro s h1 hsorted hbound hlast
    have hrest : rest.Sorted (· ≤ ·) := hsorted.of_cons
    have hle : ∀ u ∈ rest, t ≤ u := (List.sorted_cons.mp hsorted).1
    have hb : ∀ u ∈ rest, u < U32 := fun u hu => hbound u (List.mem_cons_of_mem _ hu)
    have htL : s.lastBlinkMillis ≤ t := hlast t (List.mem_cons_self _ _)
    have hsub : subU32 t s.lastBlinkMillis = t - s.lastBlinkMillis :=
      subU32_of_le htL (hbound t (List.mem_cons_self _ _))
    by_cases hi : blinkInterval ≤ subU32 t s.lastBlinkMillis
    · have hstep := handleBlinker_on_toggle s t h1 hi
      obtain ⟨hall, _⟩ := ih { s with blinkerState := !s.blinkerState, lastBlinkMillis := t }
        h1 hrest hb hle
      simp only at hall
      have hcs : onCalls s (t :: rest) =
          (t, if (!s.blinkerState) = true then 1 else 0) ::
            onCalls { s with blinkerState := !s.blinkerState, lastBlinkMillis := t } rest := by
        simp [onCalls, hstep]
      rw [hsub] at hi
      unfold blinkInterval at hi
      rw [hcs]
      refine ⟨fun p hp => ?_, fun p hp => ?_⟩
      · rcases List.mem_cons.mp hp with rfl | hp
        · refine ⟨by simp only; omega, fun hbs hx => ?_⟩
          simp [hbs] at hx
        · have := (hall p hp).1
          exact ⟨by omega, fun _ _ => by omega⟩
      · simp only [List.head?_cons, Option.mem_def, Option.some.injEq] at hp
        subst hp
        cases hbs : s.blinkerState <;> simp
    · have hstep := handleBlinker_on_hold s t h1 (Nat.not_le.mp hi)
      have hcs : onCalls s (t :: rest) = onCalls s rest := by
        simp [onCalls, hstep]
      rw [hcs]
      exact ih s h1 hrest hb (fun u hu => hlast u (List.mem_cons_of_mem _ hu))

/-- A `long` that fits in the board's `int` is stored unchanged. -/
theorem toIntVar_of_fitsInt {intBits : Nat} (hbits : 0 < intBits) {x : Int}
    (h : fitsInt intBits x) : toIntVar intBits x = x := by
  obtain ⟨n, rfl⟩ : ∃ n, intBits = n + 1 := ⟨intBits - 1, by omega⟩
  unfold fitsInt at h
  unfold toIntVar
  simp only [Nat.add_sub_cancel] at h ⊢
  have hpow : (2 : Int) ^ (n + 1) = 2 * 2 ^ n := by ring
  have hpos : (0 : Int) < 2 ^ n := by positivity
  rw [hpow, Int.emod_eq_of_lt (by omega) (by omega)]
  omega

/-- The exact floor of `0.72 x` lies in the floating-point range of line 58. -/
theorem coolant_exact_in_range (x : Int) :
    coolantLo x ≤ 72 * x / 100 ∧ 72 * x / 100 ≤ coolantHi x := by
  unfold coolantLo coolantHi
  omega

/-- The toggle decision of `handleBlinker`: request On, recorded request On and
at least `blinkInterval` elapsed since `lastBlinkMillis`, modulo `2 ^ 32`. -/
theorem handleBlinker_toggled_iff (r : Int) (s : Chan) (now : Nat) :
    (handleBlinker r s now).toggled = true ↔
      (r = 1 ∧ s.previousTurn = 1 ∧ blinkInterval ≤ subU32 now s.lastBlinkMillis) := by
  by_cases hr : r = 1
  · subst hr
    by_cases h1 : s.previousTurn = 1
    · by_cases hi : blinkInterval ≤ subU32 now s.lastBlinkMillis
      · rw [handleBlinker_on_toggle s now h1 hi]; simp [h1, hi]
      · rw [handleBlinker_on_hold s now h1 (Nat.not_le.mp hi)]; simp [hi]
    · rw [handleBlinker_on_edge s now h1]; simp [h1]
  · rw [handleBlinker_not_on r s now hr]; simp [hr]

/-! ## Claims -/

/-- C1: a call of `handleBlinker` with request Off (`currentTurn = 0`) leaves
`blinkerState` false, sends exactly the command 0 to the driver and does not
flip; hence in a run over any sequence of requests and clock values, every
cycle whose request is Off ends with `blinkerState` false, has sent 0 and has
not toggled. -/
theorem C1_off_request_emits_off :
    (∀ (s : Chan) (now : Nat),
      (handleBlinker 0 s now).chan.blinkerState = false ∧
      (handleBlinker 0 s now).calls = [0] ∧
      (handleBlinker 0 s now).toggled = false) ∧
    (∀ (s : Chan) (inputs : List (Int × Nat)) (i : Nat) (t : Nat),
      inputs[i]? = some (0, t) →
      ∃ o, (trace s inputs)[i]? = some o ∧
        o.chan.blinkerState = false ∧ o.calls = [0] ∧ o.toggled = false) := by
  have single : ∀ (s : Chan) (now : Nat),
      (handleBlinker 0 s now).chan.blinkerState = false ∧
      (handleBlinker 0 s now).calls = [0] ∧
      (handleBlinker 0 s now).toggled = false := by
    intro s now
    rw [handleBlinker_not_on 0 s now (by decide)]
    exact ⟨rfl, rfl, rfl⟩
  refine ⟨single, ?_⟩
  intro s inputs i t h
  exact ⟨_, trace_getElem? inputs s i 0 t h, single _ t⟩

/-- Witness for C1: the Off cycle in the middle of an On / Off / On run. -/
theorem C1_off_request_emits_off_witness :
    ∃ o, (trace Chan.init [(1, 10), (0, 700), (1, 900)])[1]? = some o ∧
      o.chan.blinkerState = false ∧ o.calls = [0] ∧ o.toggled = false :=
  C1_off_request_emits_off.2 Chan.init [(1, 10), (0, 700), (1, 900)] 1 700 (by decide)

/-- C2 (evaluation at the failing input): on the initial channel (recorded
request Off) the call that sees request On at clock value 10 sets
`blinkerState` to true but sends nothing to the driver; the first command sent
afterwards, at the first toggle, is 0 (Off). -/
theorem C2_edge_call_sends_nothing :
    (handleBlinker 1 Chan.init 10).chan.blinkerState = true ∧
    (handleBlinker 1 Chan.init 10).calls = [] ∧
    (trace Chan.init [(1, 10), (1, 400), (1, 520)]).map Outcome.calls = [[], [], [0]] := by
  decide

/-- C3: when the request `r` differs from the recorded request, after
`handleBlinker` the recorded request is `r`, `previousMillis` and
`lastBlinkMillis` are the clock value, and `blinkerState` is `r == 1`,
whatever the previous `blinkerState` and `lastBlinkMillis` were (stated for
every integer `r`, in particular for 0 and 1). -/
theorem C3_edge_reset (s : Chan) (r : Int) (now : Nat) (h : r ≠ s.previousTurn) :
    (handleBlinker r s now).chan.previousTurn = r ∧
    (handleBlinker r s now).chan.previousMillis = now ∧
    (handleBlinker r s now).chan.lastBlinkMillis = now ∧
    (handleBlinker r s now).chan.blinkerState = decide (r = 1) := by
  by_cases hr : r = 1
  · subst hr
    rw [handleBlinker_on_edge s now (fun e => h e.symm)]
    simp
  · rw [handleBlinker_not_on r s now hr]
    simp [edgeReset, h, hr]

/-- Witness for C3: an On→Off edge on a channel that was lit. -/
theorem C3_edge_reset_witness :
    (handleBlinker 0 ⟨1, true, 40, 7⟩ 900).chan.previousTurn = 0 ∧
    (handleBlinker 0 ⟨1, true, 40, 7⟩ 900).chan.previousMillis = 900 ∧
    (handleBlinker 0 ⟨1, true, 40, 7⟩ 900).chan.lastBlinkMillis = 900 ∧
    (handleBlinker 0 ⟨1, true, 40, 7⟩ 900).chan.blinkerState = decide ((0 : Int) = 1) :=
  C3_edge_reset ⟨1, true, 40, 7⟩ 0 900 (by decide)

/-- C4: in a run of `handleBlinker` calls on one channel with request On
throughout, at non-decreasing clock values that do not wrap around (all below
`2 ^ 32`, and not before `lastBlinkMillis` when the channel is already On),
any two successive toggles are at least `blinkInterval = 500` ms apart; and
when the run starts with the Off→On edge (recorded request not On, first call
at `t0`), every toggle, so the first one, is at least 500 ms after `t0`. -/
theorem C4_toggle_gap_lower_bound (s : Chan) (ts : List Nat)
    (hsorted : ts.Sorted (· ≤ ·)) (hbound : ∀ t ∈ ts, t < U32)
    (hstart : s.previousTurn = 1 → ∀ t ∈ ts, s.lastBlinkMillis ≤ t) :
    (toggleTimes s ts).Chain' (fun a b => a + 500 ≤ b) ∧
    (s.previousTurn ≠ 1 → ∀ t0 ∈ ts.head?, ∀ t ∈ toggleTimes s ts, t0 + 500 ≤ t) := by
  by_cases h1 : s.previousTurn = 1
  · exact ⟨(toggleTimes_gap_of_on ts s h1 hsorted hbound (hstart h1)).1, fun h => absurd h1 h⟩
  · cases ts with
    | nil => simp [toggleTimes]
    | cons t0 rest =>
      have hstep := handleBlinker_on_edge s t0 h1
      have htt : toggleTimes s (t0 :: rest) =
          toggleTimes { previousMillis := t0, previousTurn := 1, blinkerState := true,
                        lastBlinkMillis := t0 } rest := by
        simp [toggleTimes, hstep]
      obtain ⟨hc, hall⟩ := toggleTimes_gap_of_on rest
        { previousMillis := t0, previousTurn := 1, blinkerState := true, lastBlinkMillis := t0 }
        rfl hsorted.of_cons (fun u hu => hbound u (List.mem_cons_of_mem _ hu))
        (List.sorted_cons.mp hsorted).1
      rw [htt]
      refine ⟨hc, fun _ t1 ht1 t ht => ?_⟩
      simp only [List.head?_cons, Option.mem_def, Option.some.injEq] at ht1
      subst ht1
      exact hall t ht

/-- Witness for C4: the run of scenario A continued; toggles at 520, 1020, 1600. -/
theorem C4_toggle_gap_lower_bound_witness :
    ((toggleTimes Chan.init [10, 400, 520, 1010, 1020, 1600]).Chain' (fun a b => a + 500 ≤ b) ∧
      (Chan.init.previousTurn ≠ 1 → ∀ t0 ∈ [10, 400, 520, 1010, 1020, 1600].head?,
        ∀ t ∈ toggleTimes Chan.init [10, 400, 520, 1010, 1020, 1600], t0 + 500 ≤ t)) ∧
    (toggleTimes ⟨1, true, 10, 10⟩ [400, 520, 1010, 1020, 1600]).Chain'
      (fun a b => a + 500 ≤ b) :=
  ⟨C4_toggle_gap_lower_bound Chan.init [10, 400, 520, 1010, 1020, 1600]
      (by decide) (by decide) (by decide),
    (C4_toggle_gap_lower_bound ⟨1, true, 10, 10⟩ [400, 520, 1010, 1020, 1600]
      (by decide) (by decide) (by decide)).1⟩

/-- C5: in a run of `handleBlinker` calls on one channel with request On
throughout, at non-decreasing non-wrapping clock values with consecutive calls
at most `P` ms apart, a toggle at `t` is followed by the next toggle no later
than `t + 500 + P`, provided some later call of the run is at `t + 500` or
beyond; that next toggle is also not before `t + 500`. -/
theorem C5_toggle_gap_upper_bound (s0 : Chan) (pre : List Nat) (t : Nat) (post : List Nat)
    (P : Nat)
    (hsorted : (pre ++ t :: post).Sorted (· ≤ ·))
    (hbound : ∀ u ∈ pre ++ t :: post, u < U32)
    (hgap : (pre ++ t :: post).Chain' (fun a b => b ≤ a + P))
    (htog : (handleBlinker 1 (runOn s0 pre) t).toggled = true)
    (hlong : ∃ u ∈ post, t + 500 ≤ u) :
    ∃ t1, (toggleTimes (handleBlinker 1 (runOn s0 pre) t).chan post).head? = some t1 ∧
      t + 500 ≤ t1 ∧ t1 ≤ t + 500 + P ∧
      toggleTimes s0 (pre ++ t :: post) =
        toggleTimes s0 pre ++ t :: toggleTimes (handleBlinker 1 (runOn s0 pre) t).chan post := by
  have hL := handleBlinker_toggled_lastBlinkMillis (runOn s0 pre) t htog
  have h1 := handleBlinker_on_previousTurn (runOn s0 pre) t
  have hs : (t :: post).Sorted (· ≤ ·) :=
    List.Pairwise.sublist (List.sublist_append_right pre (t :: post)) hsorted
  have hg : (t :: post).Chain' (fun a b => b ≤ a + P) := List.Chain'.right_of_append hgap
  have hb : ∀ u ∈ post, u < U32 := fun u hu =>
    hbound u (List.mem_append_right pre (List.mem_cons_of_mem _ hu))
  have key := next_toggle_within P post (handleBlinker 1 (runOn s0 pre) t).chan t h1
    (by rw [hL]) (by rw [hL]; simp [blinkInterval]) hs hg hb
    (by rw [hL]; simpa [blinkInterval] using hlong)
  rw [hL] at key
  obtain ⟨t1, hh, hlo, hhi⟩ := key
  refine ⟨t1, hh, by simpa [blinkInterval] using hlo, by simpa [blinkInterval] using hhi, ?_⟩
  rw [toggleTimes_append]
  simp [toggleTimes, htog]

/-- Witness for C5: calls at most 120 ms apart; the toggle at 520 is followed
by the toggle at 1050, within 500 + 120 ms. -/
theorem C5_toggle_gap_upper_bound_witness :
    ∃ t1, (toggleTimes (handleBlinker 1 (runOn Chan.init [10, 100, 220, 340, 460]) 520).chan
        [640, 760, 880, 1000, 1050, 1100]).head? = some t1 ∧
      520 + 500 ≤ t1 ∧ t1 ≤ 520 + 500 + 120 ∧
      toggleTimes Chan.init ([10, 100, 220, 340, 460] ++ 520 :: [640, 760, 880, 1000, 1050, 1100]) =
        toggleTimes Chan.init [10, 100, 220, 340, 460] ++
          520 :: toggleTimes (handleBlinker 1 (runOn Chan.init [10, 100, 220, 340, 460]) 520).chan
            [640, 760, 880, 1000, 1050, 1100] :=
  C5_toggle_gap_upper_bound Chan.init [10, 100, 220, 340, 460] 520
    [640, 760, 880, 1000, 1050, 1100] 120 (by decide) (by decide) (by simp) (by decide)
    ⟨1050, by decide, by decide⟩

/-- C6 (as stated, refuted): from the initial channel, requests
[Off,On,On,On,On] at clock values [0,10,400,520,1010] do not leave
`blinkerState` at [Off,On,On,Off,On] after the successive calls. -/
theorem C6_scenarioA_as_stated_fails :
    (trace Chan.init [(0, 0), (1, 10), (1, 400), (1, 520), (1, 1010)]).map
        (fun o => o.chan.blinkerState) ≠ [false, true, true, false, true] := by
  decide

/-- C6 (amended): from the initial channel, requests [Off,On,On,On,On] at clock
values [0,10,400,520,1010] leave `blinkerState` at [Off,On,On,Off,Off] after
the successive calls: the state flips to Off at 520 and does not flip at 1010,
which is only 490 ms after the toggle at 520 (`lastBlinkMillis = 520`). -/
theorem C6_scenarioA_amended :
    (trace Chan.init [(0, 0), (1, 10), (1, 400), (1, 520), (1, 1010)]).map
        (fun o => o.chan.blinkerState) = [false, true, true, false, false] ∧
    (trace Chan.init [(0, 0), (1, 10), (1, 400), (1, 520), (1, 1010)]).map
        Outcome.toggled = [false, false, false, true, false] ∧
    (runChan Chan.init [(0, 0), (1, 10), (1, 400), (1, 520), (1, 1010)]).lastBlinkMillis
        = 520 := by
  decide

/-- C7: for every channel and clock value, a second call of `handleBlinker`
with request On at the same clock value leaves the channel as the first call
left it, does not toggle and sends nothing to the driver. -/
theorem C7_same_timestamp_idempotent (s : Chan) (now : Nat) :
    (handleBlinker 1 (handleBlinker 1 s now).chan now).chan = (handleBlinker 1 s now).chan ∧
    (handleBlinker 1 (handleBlinker 1 s now).chan now).toggled = false ∧
    (handleBlinker 1 (handleBlinker 1 s now).chan now).calls = [] := by
  have hold : ∀ c : Chan, c.previousTurn = 1 → subU32 now c.lastBlinkMillis < blinkInterval →
      (handleBlinker 1 c now).chan = c ∧ (handleBlinker 1 c now).toggled = false ∧
        (handleBlinker 1 c now).calls = [] := by
    intro c h1 h
    rw [handleBlinker_on_hold c now h1 h]
    exact ⟨rfl, rfl, rfl⟩
  by_cases h1 : s.previousTurn = 1
  · by_cases hi : blinkInterval ≤ subU32 now s.lastBlinkMillis
    · rw [handleBlinker_on_toggle s now h1 hi]
      exact hold _ h1 (by simp [subU32_self, blinkInterval])
    · rw [handleBlinker_on_hold s now h1 (Nat.not_le.mp hi)]
      exact hold _ h1 (Nat.not_le.mp hi)
  · rw [handleBlinker_on_edge s now h1]
    exact hold _ rfl (by simp [subU32_self, blinkInterval])

/-- C8 (as stated, refuted): on a channel already On and lit, last toggled at
10, the call with request On at clock value 400 makes no driver call at all,
so it does not invoke the driver exactly once with the current state. -/
theorem C8_no_command_without_toggle :
    (handleBlinker 1 ⟨1, true, 10, 10⟩ 400).calls = [] ∧
    (handleBlinker 1 ⟨1, true, 10, 10⟩ 400).calls ≠
      [if (handleBlinker 1 ⟨1, true, 10, 10⟩ 400).chan.blinkerState = true then 1 else 0] := by
  decide

/-- C8 (amended): one call of `handleBlinker` invokes the driver operation at
most once, and any invocation carries 1 if `blinkerState` is true after the
call and 0 otherwise; with a request other than On it is invoked exactly once,
with 0; with request On equal to the recorded request it is invoked exactly
once in the cycles where the toggle occurs (elapsed time modulo `2 ^ 32` at
least 500) and not at all in the other cycles. -/
theorem C8_driver_calls_amended (s : Chan) (r : Int) (now : Nat) :
    (handleBlinker r s now).calls.length ≤ 1 ∧
    (∀ x ∈ (handleBlinker r s now).calls,
      x = if (handleBlinker r s now).chan.blinkerState = true then 1 else 0) ∧
    (r ≠ 1 → (handleBlinker r s now).calls = [0]) ∧
    (r = 1 → s.previousTurn = 1 → 500 ≤ subU32 now s.lastBlinkMillis →
      (handleBlinker r s now).toggled = true ∧
      (handleBlinker r s now).calls =
        [if (handleBlinker r s now).chan.blinkerState = true then 1 else 0]) ∧
    (r = 1 → s.previousTurn = 1 → subU32 now s.lastBlinkMillis < 500 →
      (handleBlinker r s now).toggled = false ∧ (handleBlinker r s now).calls = []) := by
  by_cases hr : r = 1
  · subst hr
    by_cases h1 : s.previousTurn = 1
    · by_cases hi : blinkInterval ≤ subU32 now s.lastBlinkMillis
      · have hi2 : ¬ subU32 now s.lastBlinkMillis < 500 := by
          simpa [blinkInterval] using hi
        rw [handleBlinker_on_toggle s now h1 hi]
        simp [hi2]
      · have hi2 : ¬ 500 ≤ subU32 now s.lastBlinkMillis := by
          simpa [blinkInterval] using hi
        rw [handleBlinker_on_hold s now h1 (Nat.not_le.mp hi)]
        simp [hi2]
    · rw [handleBlinker_on_edge s now h1]
      simp [h1]
  · rw [handleBlinker_not_on r s now hr]
    simp [hr]

/-- Witness for C8 (amended): the toggle cycle of scenario A, request On at 520
on the channel lit since 10, sends exactly the new state 0. -/
theorem C8_driver_calls_amended_witness :
    (handleBlinker 1 ⟨1, true, 10, 10⟩ 520).toggled = true ∧
    (handleBlinker 1 ⟨1, true, 10, 10⟩ 520).calls =
      [if (handleBlinker 1 ⟨1, true, 10, 10⟩ 520).chan.blinkerState = true then 1 else 0] :=
  (C8_driver_calls_amended ⟨1, true, 10, 10⟩ 1 520).2.2.2.1 rfl rfl (by decide)

/-- C9: on the pair of channels, the left update followed by the right update
and the right update followed by the left update end in the same pair and send
the same commands to each side; a left update leaves the right channel
unchanged and a right update leaves the left channel unchanged. -/
theorem C9_left_right_independent (p : Pair) (rL rR : Int) (tL tR : Nat) :
    (updateRight (updateLeft p rL tL).1 rR tR).1 = (updateLeft (updateRight p rR tR).1 rL tL).1 ∧
    leftCalls ((updateLeft p rL tL).2 ++ (updateRight (updateLeft p rL tL).1 rR tR).2) =
      leftCalls ((updateRight p rR tR).2 ++ (updateLeft (updateRight p rR tR).1 rL tL).2) ∧
    rightCalls ((updateLeft p rL tL).2 ++ (updateRight (updateLeft p rL tL).1 rR tR).2) =
      rightCalls ((updateRight p rR tR).2 ++ (updateLeft (updateRight p rR tR).1 rL tL).2) ∧
    leftCalls ((updateLeft p rL tL).2 ++ (updateRight (updateLeft p rL tL).1 rR tR).2) =
      (handleBlinker rL p.left tL).calls ∧
    rightCalls ((updateLeft p rL tL).2 ++ (updateRight (updateLeft p rL tL).1 rR tR).2) =
      (handleBlinker rR p.right tR).calls ∧
    (updateLeft p rL tL).1.right = p.right ∧
    (updateRight p rR tR).1.left = p.left := by
  simp [updateLeft, updateRight, leftCalls_append, rightCalls_append, leftCalls_map_left,
    leftCalls_map_right, rightCalls_map_left, rightCalls_map_right]

/-- C10: from the initial channel, requests [On,Off,On] at any clock values
`t1`, `t2`, `t3`: the second call leaves `blinkerState` false, sends 0 and
leaves `previousMillis = lastBlinkMillis = t2`; the third call leaves
`blinkerState` true, whatever `t3 - t2` is. -/
theorem C10_scenarioB (t1 t2 t3 : Nat) :
    ∃ o1 o2 o3, trace Chan.init [(1, t1), (0, t2), (1, t3)] = [o1, o2, o3] ∧
      o2.chan.blinkerState = false ∧ o2.calls = [0] ∧
      o2.chan.previousMillis = t2 ∧ o2.chan.lastBlinkMillis = t2 ∧
      o3.chan.blinkerState = true := by
  refine ⟨_, _, _, rfl, ?_⟩
  have e1 : (handleBlinker 1 Chan.init t1).chan.previousTurn = 1 :=
    handleBlinker_on_previousTurn _ _
  have h0 : (0 : Int) ≠ (handleBlinker 1 Chan.init t1).chan.previousTurn := by
    rw [e1]; decide
  have e2 : (handleBlinker 0 (handleBlinker 1 Chan.init t1).chan t2).chan =
      { previousMillis := t2, previousTurn := 0, blinkerState := false,
        lastBlinkMillis := t2 } := by
    rw [handleBlinker_not_on 0 _ t2 (by decide)]
    simp [edgeReset, h0]
  have hne : (handleBlinker 0 (handleBlinker 1 Chan.init t1).chan t2).chan.previousTurn ≠ 1 := by
    rw [e2]; simp
  have e3 := handleBlinker_on_edge (handleBlinker 0 (handleBlinker 1 Chan.init t1).chan t2).chan
    t3 hne
  refine ⟨by rw [e2], ?_, by rw [e2], by rw [e2], by rw [e3]⟩
  rw [handleBlinker_not_on 0 _ t2 (by decide)]

/-- C11 (as stated, refuted): from the initial channel, request On at clock
values 0 (the edge), 400, 800, 1200, 1600, non-decreasing and at most
`P = 400` ms apart: the second toggle happens at 1600, later than
`0 + 2 * 500 + 400`. -/
theorem C11_drift_exceeds_one_period :
    Chan.init.previousTurn ≠ 1 ∧
    [0, 400, 800, 1200, 1600].Sorted (· ≤ ·) ∧
    [0, 400, 800, 1200, 1600].Chain' (fun a b => b ≤ a + 400) ∧
    (toggleTimes Chan.init [0, 400, 800, 1200, 1600])[1]? = some 1600 ∧
    ¬ (1600 ≤ 0 + 2 * 500 + 400) := by
  refine ⟨by decide, by decide, by simp, by decide, by decide⟩

/-- C11 (amended): in a run with request On throughout that starts with the
Off→On edge at `t0`, at non-decreasing non-wrapping clock values with
consecutive calls at most `P` ms apart, the toggle number `k + 1`, when it
happens, is no earlier than `t0 + (k + 1) * 500` and no later than
`t0 + (k + 1) * 500 + (k + 1) * P`; and it does happen when some call of the
run is at `t0 + (k + 1) * 500 + k * P` or later. -/
theorem C11_kth_toggle_amended (s : Chan) (t0 : Nat) (rest : List Nat) (P k : Nat)
    (hedge : s.previousTurn ≠ 1)
    (hsorted : (t0 :: rest).Sorted (· ≤ ·))
    (hbound : ∀ u ∈ t0 :: rest, u < U32)
    (hgap : (t0 :: rest).Chain' (fun a b => b ≤ a + P)) :
    (∀ t, (toggleTimes s (t0 :: rest))[k]? = some t →
      t0 + (k + 1) * 500 ≤ t ∧ t ≤ t0 + (k + 1) * 500 + (k + 1) * P) ∧
    ((∃ u ∈ rest, t0 + (k + 1) * 500 + k * P ≤ u) →
      ∃ t, (toggleTimes s (t0 :: rest))[k]? = some t) := by
  have hstep := handleBlinker_on_edge s t0 hedge
  have htt : toggleTimes s (t0 :: rest) =
      toggleTimes { previousMillis := t0, previousTurn := 1, blinkerState := true,
                    lastBlinkMillis := t0 } rest := by
    simp [toggleTimes, hstep]
  rw [htt]
  exact kth_toggle_bounds P rest
    { previousMillis := t0, previousTurn := 1, blinkerState := true, lastBlinkMillis := t0 }
    t0 k rfl (le_refl t0) (by simp [blinkInterval]) hsorted
    hgap (fun u hu => hbound u (List.mem_cons_of_mem _ hu))

/-- Witness for C11 (amended): the run of the counterexample; the second toggle
exists and lies within `0 + 2 * 500 + 2 * 400`. -/
theorem C11_kth_toggle_amended_witness :
    (∀ t, (toggleTimes Chan.init (0 :: [400, 800, 1200, 1600]))[1]? = some t →
      0 + (1 + 1) * 500 ≤ t ∧ t ≤ 0 + (1 + 1) * 500 + (1 + 1) * 400) ∧
    ((∃ u ∈ [400, 800, 1200, 1600], 0 + (1 + 1) * 500 + 1 * 400 ≤ u) →
      ∃ t, (toggleTimes Chan.init (0 :: [400, 800, 1200, 1600]))[1]? = some t) :=
  C11_kth_toggle_amended Chan.init 0 [400, 800, 1200, 1600] 400 1
    (by decide) (by decide) (by decide) (by simp)

/-- C12: two channels that differ only in `previousMillis`, given the same
request and clock value, make the same driver calls (or none), take the same
flip decision and end with the same `blinkerState`, `lastBlinkMillis` and
recorded request; the flip is decided by the request, the recorded request and
the elapsed time against 500 alone; and `handleBlinker` is the body of lines
28-48 run with the constants of the source, whose outcome is the same whatever
value `debounceDelay` is given: the constant is never read. -/
theorem C12_debounce_data_unused (s : Chan) (a b d : Nat) (r : Int) (now : Nat) :
    (handleBlinker r { s with previousMillis := a } now).calls =
      (handleBlinker r { s with previousMillis := b } now).calls ∧
    (handleBlinker r { s with previousMillis := a } now).toggled =
      (handleBlinker r { s with previousMillis := b } now).toggled ∧
    (handleBlinker r { s with previousMillis := a } now).chan.blinkerState =
      (handleBlinker r { s with previousMillis := b } now).chan.blinkerState ∧
    (handleBlinker r { s with previousMillis := a } now).chan.lastBlinkMillis =
      (handleBlinker r { s with previousMillis := b } now).chan.lastBlinkMillis ∧
    (handleBlinker r { s with previousMillis := a } now).chan.previousTurn =
      (handleBlinker r { s with previousMillis := b } now).chan.previousTurn ∧
    ((handleBlinker r s now).toggled = true ↔
      (r = 1 ∧ s.previousTurn = 1 ∧ 500 ≤ subU32 now s.lastBlinkMillis)) ∧
    handleBlinkerWith Constants.source r s now = handleBlinker r s now ∧
    handleBlinkerWith { Constants.source with debounceDelay := d } r s now =
      handleBlinkerWith Constants.source r s now := by
  refine ⟨?_, ?_, ?_, ?_, ?_, handleBlinker_toggled_iff r s now, rfl, rfl⟩ <;>
  · by_cases hr : r = 1
    · subst hr
      by_cases h1 : s.previousTurn = 1
      · by_cases hi : blinkInterval ≤ subU32 now s.lastBlinkMillis
        · rw [handleBlinker_on_toggle { s with previousMillis := a } now h1 hi,
            handleBlinker_on_toggle { s with previousMillis := b } now h1 hi]
        · rw [handleBlinker_on_hold { s with previousMillis := a } now h1 (Nat.not_le.mp hi),
            handleBlinker_on_hold { s with previousMillis := b } now h1 (Nat.not_le.mp hi)]
      · rw [handleBlinker_on_edge { s with previousMillis := a } now h1,
          handleBlinker_on_edge { s with previousMillis := b } now h1]
    · rw [handleBlinker_not_on r { s with previousMillis := a } now hr,
        handleBlinker_not_on r { s with previousMillis := b } now hr]
      try (by_cases he : r = s.previousTurn <;> simp [edgeReset, he])

/-- C14: on a channel whose recorded request is already On, request On at a
clock value at least 500 ms after `lastBlinkMillis` (no wrap-around) negates
`blinkerState`, sets `lastBlinkMillis` to the clock value, leaves
`previousMillis` and the recorded request unchanged, and sends the driver the
new `blinkerState` (1 if true, 0 if false). -/
theorem C14_toggle_step (s : Chan) (now : Nat) (h1 : s.previousTurn = 1)
    (hel : s.lastBlinkMillis + 500 ≤ now) (hnow : now < U32) :
    (handleBlinker 1 s now).chan.blinkerState = (!s.blinkerState) ∧
    (handleBlinker 1 s now).chan.lastBlinkMillis = now ∧
    (handleBlinker 1 s now).chan.previousMillis = s.previousMillis ∧
    (handleBlinker 1 s now).chan.previousTurn = s.previousTurn ∧
    (handleBlinker 1 s now).calls =
      [if (handleBlinker 1 s now).chan.blinkerState = true then 1 else 0] ∧
    (handleBlinker 1 s now).toggled = true := by
  have hsub : subU32 now s.lastBlinkMillis = now - s.lastBlinkMillis :=
    subU32_of_le (by omega) hnow
  have hi : blinkInterval ≤ subU32 now s.lastBlinkMillis := by
    rw [hsub]; unfold blinkInterval; omega
  rw [handleBlinker_on_toggle s now h1 hi]
  simp

/-- Witness for C14: the toggle of scenario A at 520, on the channel lit since 10. -/
theorem C14_toggle_step_witness :
    (handleBlinker 1 ⟨1, true, 10, 10⟩ 520).chan.blinkerState = (!true) ∧
    (handleBlinker 1 ⟨1, true, 10, 10⟩ 520).chan.lastBlinkMillis = 520 ∧
    (handleBlinker 1 ⟨1, true, 10, 10⟩ 520).chan.previousMillis = 10 ∧
    (handleBlinker 1 ⟨1, true, 10, 10⟩ 520).chan.previousTurn = 1 ∧
    (handleBlinker 1 ⟨1, true, 10, 10⟩ 520).calls =
      [if (handleBlinker 1 ⟨1, true, 10, 10⟩ 520).chan.blinkerState = true then 1 else 0] ∧
    (handleBlinker 1 ⟨1, true, 10, 10⟩ 520).toggled = true :=
  C14_toggle_step ⟨1, true, 10, 10⟩ 520 rfl (by decide) (by decide)

/-- C15: on a channel whose recorded request is already On, request On at a
clock value less than 500 ms after `lastBlinkMillis` (and not before it)
leaves all four channel fields unchanged; and a call of `handleBlinker` that
changes `previousMillis` was made with a request different from the recorded
one. -/
theorem C15_state_persists :
    (∀ (s : Chan) (now : Nat), s.previousTurn = 1 → s.lastBlinkMillis ≤ now →
      now < s.lastBlinkMillis + 500 → now < U32 →
      (handleBlinker 1 s now).chan = s ∧ (handleBlinker 1 s now).toggled = false) ∧
    (∀ (s : Chan) (r : Int) (now : Nat),
      (handleBlinker r s now).chan.previousMillis ≠ s.previousMillis → r ≠ s.previousTurn) := by
  constructor
  · intro s now h1 hle hlt hnow
    have hsub : subU32 now s.lastBlinkMillis = now - s.lastBlinkMillis :=
      subU32_of_le hle hnow
    have hi : subU32 now s.lastBlinkMillis < blinkInterval := by
      rw [hsub]; unfold blinkInterval; omega
    rw [handleBlinker_on_hold s now h1 hi]
    exact ⟨rfl, rfl⟩
  · intro s r now hne he
    apply hne
    by_cases hr : r = 1
    · subst hr
      by_cases hi : blinkInterval ≤ subU32 now s.lastBlinkMillis
      · rw [handleBlinker_on_toggle s now he.symm hi]
      · rw [handleBlinker_on_hold s now he.symm (Nat.not_le.mp hi)]
    · rw [handleBlinker_not_on r s now hr]
      simp [edgeReset, he]

/-- Witness for C15: request On at 400 on the channel lit since 10. -/
theorem C15_state_persists_witness :
    (handleBlinker 1 ⟨1, true, 10, 10⟩ 400).chan = ⟨1, true, 10, 10⟩ ∧
    (handleBlinker 1 ⟨1, true, 10, 10⟩ 400).toggled = false :=
  C15_state_persists.1 ⟨1, true, 10, 10⟩ 400 rfl (by decide) (by decide) (by decide)

/-- C16: from a channel whose recorded request is not On, in a run with request
On at non-decreasing non-wrapping clock values `t1 ≤ ... ≤ tn`, every call
that sends the driver the command 1 has clock value at least `t1 + 1000`, and
the first driver call of the run, if there is one, carries the command 0. -/
theorem C16_first_on_command_after_1000 (s : Chan) (t1 : Nat) (rest : List Nat)
    (hedge : s.previousTurn ≠ 1)
    (hsorted : (t1 :: rest).Sorted (· ≤ ·))
    (hbound : ∀ u ∈ t1 :: rest, u < U32) :
    (∀ p ∈ onCalls s (t1 :: rest), p.2 = 1 → t1 + 1000 ≤ p.1) ∧
    (∀ p ∈ (onCalls s (t1 :: rest)).head?, p.2 = 0) := by
  have hstep := handleBlinker_on_edge s t1 hedge
  have hcs : onCalls s (t1 :: rest) =
      onCalls { previousMillis := t1, previousTurn := 1, blinkerState := true,
                lastBlinkMillis := t1 } rest := by
    simp [onCalls, hstep]
  obtain ⟨hall, hhead⟩ := onCalls_of_on rest
    { previousMillis := t1, previousTurn := 1, blinkerState := true, lastBlinkMillis := t1 }
    rfl hsorted.of_cons (fun u hu => hbound u (List.mem_cons_of_mem _ hu))
    (List.sorted_cons.mp hsorted).1
  rw [hcs]
  exact ⟨fun p hp hx => (hall p hp).2 rfl hx, fun p hp => by simpa using hhead p hp⟩

/-- Witness for C16: scenario A continued; commands 0 at 520, 1 at 1020, 0 at 1600. -/
theorem C16_first_on_command_after_1000_witness :
    (∀ p ∈ onCalls Chan.init (10 :: [400, 520, 1010, 1020, 1600]), p.2 = 1 → 10 + 1000 ≤ p.1) ∧
    (∀ p ∈ (onCalls Chan.init (10 :: [400, 520, 1010, 1020, 1600])).head?, p.2 = 0) :=
  C16_first_on_command_after_1000 Chan.init 10 [400, 520, 1010, 1020, 1600]
    (by decide) (by decide) (by decide)

/-- C17: on a channel whose recorded request is already On, for every
`lastBlinkMillis` (in particular every 32-bit one) and every true elapsed time
`d` below `2 ^ 32`, the call with request On at clock value
`(lastBlinkMillis + d) mod 2 ^ 32` toggles if and only if `d ≥ 500`, also when
the counter has wrapped around in between. -/
theorem C17_elapsed_test_across_wrap (s : Chan) (d : Nat) (h1 : s.previousTurn = 1)
    (hd : d < U32) :
    (handleBlinker 1 s ((s.lastBlinkMillis + d) % U32)).toggled = true ↔ 500 ≤ d := by
  have hsub := subU32_add_mod s.lastBlinkMillis hd
  by_cases hi : blinkInterval ≤ subU32 ((s.lastBlinkMillis + d) % U32) s.lastBlinkMillis
  · rw [handleBlinker_on_toggle s _ h1 hi]
    rw [hsub] at hi
    simpa [blinkInterval] using hi
  · rw [handleBlinker_on_hold s _ h1 (Nat.not_le.mp hi)]
    rw [hsub] at hi
    simpa [blinkInterval] using hi

/-- Witness for C17: last toggle 296 ms before the counter wraps, 500 ms
elapsed, clock value 204 after the wrap: the call toggles. -/
theorem C17_elapsed_test_across_wrap_witness :
    (handleBlinker 1 ⟨1, false, 4294967000, 0⟩ ((4294967000 + 500) % U32)).toggled = true ↔
      500 ≤ 500 :=
  C17_elapsed_test_across_wrap ⟨1, false, 4294967000, 0⟩ 500 rfl (by decide)

/-- C18: for every channel, clock value and request other than 1, also outside
{0, 1}, `handleBlinker` leaves `blinkerState` false and sends the driver
exactly the command 0; and after every call, whatever the request, the
recorded request is the request passed. -/
theorem C18_other_requests_are_off :
    (∀ (s : Chan) (r : Int) (now : Nat), r ≠ 1 →
      (handleBlinker r s now).chan.blinkerState = false ∧
      (handleBlinker r s now).calls = [0]) ∧
    (∀ (s : Chan) (r : Int) (now : Nat), (handleBlinker r s now).chan.previousTurn = r) := by
  refine ⟨fun s r now hr => ?_, fun s r now => handleBlinker_previousTurn r s now⟩
  rw [handleBlinker_not_on r s now hr]
  exact ⟨rfl, rfl⟩

/-- Witness for C18: request 7 on a lit channel whose recorded request is On. -/
theorem C18_other_requests_are_off_witness :
    (handleBlinker 7 ⟨1, true, 10, 10⟩ 300).chan.blinkerState = false ∧
    (handleBlinker 7 ⟨1, true, 10, 10⟩ 300).calls = [0] :=
  C18_other_requests_are_off.1 ⟨1, true, 10, 10⟩ 7 300 (by decide)

end SHCustomProtocol
